import Mathlib

/-!
Shallow embedding of the xompile VS Code extension.  The repository ships two
variants of `extension.ts`: an extended variant whose extractor additionally
handles fenced code blocks and cross-reference labels, and a base variant
without them.  The definitions below are pure-functional translations of
`getCommentRegex`, `extractNumberedComments` (both variants),
`updateChangeLog`, `generateMarkdownReport` (the base report and the extended
doc report), `rollbackToComment`, and the `xompile.rollbackToComment` command
handler.  Host-editor state (documents, the active editor) is passed
explicitly; `Date.now()` is passed as an explicit clock value `now`.
-/

/-- Whitespace class used both by the JavaScript regex escape for whitespace
and by `String.prototype.trim`: ASCII whitespace plus NBSP and BOM. -/
def isJsWS (c : Char) : Bool :=
  c = ' ' || c = '\t' || c = '\n' || c = '\r' || c = '\x0b' || c = '\x0c' ||
  c = '\u00a0' || c = '\ufeff'

/-- JavaScript `String.prototype.trim`: drop leading and trailing whitespace. -/
def trimChars (s : List Char) : List Char :=
  ((s.dropWhile isJsWS).reverse.dropWhile isJsWS).reverse

/-- Helper for the anchored regex match: consume the literal marker at the
start of the line, returning the remainder on success. -/
def stripMarker : List Char → List Char → Option (List Char)
  | [], s => some s
  | _ :: _, [] => none
  | p :: ps, c :: cs => if c = p then stripMarker ps cs else none

/-- JavaScript `RegExp.prototype.test` for the (unanchored) literal sentinel
patterns: does `pat` occur as a contiguous substring of `s`? -/
def containsSub (pat : List Char) : List Char → Bool
  | [] => pat.isEmpty
  | c :: rest => pat.isPrefixOf (c :: rest) || containsSub pat rest

/-- Match of the anchored comment-numbering pattern: the line-comment marker,
optional whitespace, one or more digits, a colon, then free text to the end of
the line.  Returns the digit group and the payload group on success.  This is
the meaning of the source regexes matched against a single line of text. -/
def matchNumbered (marker line : List Char) : Option (List Char × List Char) :=
  match stripMarker marker line with
  | none => none
  | some r1 =>
    let r2 := r1.dropWhile isJsWS
    let digits := r2.takeWhile Char.isDigit
    match r2.dropWhile Char.isDigit with
    | ':' :: payload => if digits.isEmpty then none else some (digits, payload)
    | _ => none

/-- Comment-pattern registry `getCommentRegex`, identical in both variants;
the regex is represented by its line-comment marker (the rest of the pattern
is shared and interpreted by `matchNumbered`). -/
def getCommentRegex : String → Option (List Char)
  | "javascript" => some ['/', '/']
  | "typescript" => some ['/', '/']
  | "python" => some ['#']
  | "java" => some ['/', '/']
  | _ => none

/-- Sentinel pattern of the extended variant marking the start of a fenced
code block (the source's `codeBlockStartRegex`). -/
def codeBlockStartPat : List Char := ['/', '/', '[', '!', '!', ']']

/-- Sentinel pattern of the extended variant marking the end of a fenced code
block (the source's `codeBlockEndRegex`). -/
def codeBlockEndPat : List Char := ['/', '/', '[', '-', '!', '!', '-', ']']

/-- Record for one recognized numbered-comment line (the source's
`CommentEntry`).  The base variant has no `codeReference` field; it is
modelled there as always `none`. -/
structure CommentEntry where
  lineNumber : Nat
  comment : String
  timestamp : Nat
  filePath : String
  codeReference : Option String
deriving DecidableEq

/-- Change log store: file path keyed association list of comment records,
in insertion order (the source's `ChangeLog` object). -/
abbrev ChangeLog := List (String × List CommentEntry)

/-- Cross-reference label minted from the shared counter, exactly as the
template literal in the source builds it. -/
def mkCodeRef (n : Nat) : String :=
  "[Code Reference " ++ toString n ++ "](#code-" ++ toString n ++ ")"

/-- Host text document: its lines (without line terminators), language id and
file name. -/
structure TextDocument where
  lines : List (List Char)
  languageId : String
  fileName : String
deriving DecidableEq

/-- Loop state of the extended extractor: the records built so far, the shared
cross-reference counter (starting at 1), and the buffered code-block lines. -/
structure ExtState where
  comments : List CommentEntry
  codeReferenceCounter : Nat
  codeBlockLines : List (List Char)
deriving DecidableEq

/-- Pass run by the extended extractor on a block-end line: walk the records
in order and give every record still lacking a `codeReference` the next label
from the counter (the `comments.forEach` at the block-end branch). -/
def assignRefs : Nat → List CommentEntry → List CommentEntry × Nat
  | k, [] => ([], k)
  | k, c :: cs =>
    if c.codeReference.isNone then
      let rest := assignRefs (k + 1) cs
      ({ c with codeReference := some (mkCodeRef k) } :: rest.1, rest.2)
    else
      let rest := assignRefs k cs
      (c :: rest.1, rest.2)

/-- Body of the extended extractor's per-line loop: block-start test first,
then block-end test, then the comment-pattern match on the raw (untrimmed)
line text, else the code-line accumulation branch. -/
def stepExt (marker : List Char) (filePath : String) (now : Nat) (line : Nat)
    (text : List Char) (st : ExtState) : ExtState :=
  if containsSub codeBlockStartPat text then
    { st with codeBlockLines := [] }
  else if containsSub codeBlockEndPat text then
    let r := assignRefs st.codeReferenceCounter st.comments
    { st with comments := r.1, codeReferenceCounter := r.2 }
  else
    match matchNumbered marker text with
    | some pr =>
      { st with
        comments := st.comments ++
          [⟨line + 1, String.mk (trimChars pr.2), now, filePath,
            some (mkCodeRef st.codeReferenceCounter)⟩],
        codeReferenceCounter := st.codeReferenceCounter + 1 }
    | none =>
      if st.codeBlockLines.length > 0 ||
          st.comments.any (fun c => c.codeReference.isNone) then
        { st with codeBlockLines := st.codeBlockLines ++ [text] }
      else st

/-- Line loop of the extended extractor over the document's lines, carrying
the 0-based line index. -/
def extractGoExt (marker : List Char) (filePath : String) (now : Nat) :
    Nat → List (List Char) → ExtState → ExtState
  | _, [], st => st
  | line, text :: rest, st =>
    extractGoExt marker filePath now (line + 1) rest
      (stepExt marker filePath now line text st)

/-- Extended-variant `extractNumberedComments`: unsupported languages yield an
empty list; otherwise run the line loop from counter 1 and an empty buffer. -/
def extractNumberedCommentsExt (doc : TextDocument) (now : Nat) :
    List CommentEntry :=
  match getCommentRegex doc.languageId with
  | none => []
  | some marker =>
    (extractGoExt marker doc.fileName now 0 doc.lines ⟨[], 1, []⟩).comments

/-- Body of the base extractor's per-line loop: trim the line, match the
comment pattern, and append one record on success. -/
def stepBase (marker : List Char) (filePath : String) (now : Nat) (line : Nat)
    (text : List Char) (acc : List CommentEntry) : List CommentEntry :=
  match matchNumbered marker (trimChars text) with
  | some pr =>
    acc ++ [⟨line + 1, String.mk (trimChars pr.2), now, filePath, none⟩]
  | none => acc

/-- Line loop of the base extractor over the document's lines. -/
def extractGoBase (marker : List Char) (filePath : String) (now : Nat) :
    Nat → List (List Char) → List CommentEntry → List CommentEntry
  | _, [], acc => acc
  | line, text :: rest, acc =>
    extractGoBase marker filePath now (line + 1) rest
      (stepBase marker filePath now line text acc)

/-- Base-variant `extractNumberedComments`: unsupported languages yield an
empty list; otherwise run the line loop on the trimmed lines. -/
def extractNumberedCommentsBase (doc : TextDocument) (now : Nat) :
    List CommentEntry :=
  match getCommentRegex doc.languageId with
  | none => []
  | some marker => extractGoBase marker doc.fileName now 0 doc.lines []

/-- Active editor buffer: the focused document's file name and its lines. -/
structure Editor where
  fileName : String
  lines : List (List Char)
deriving DecidableEq

/-- Failure cases of `rollbackToComment`, one per early return in the source:
`noHistory` and `commentNotFound` surface as the spec's NotFound,
`noActiveEditor` as NoActiveTarget, `wrongBuffer` as WrongBuffer.
`illegalLine` models the host throwing when `document.lineAt` is asked for a
line index outside the buffer. -/
inductive RollbackError where
  | noHistory
  | commentNotFound
  | noActiveEditor
  | wrongBuffer
  | illegalLine
deriving DecidableEq

/-- Result of a `rollbackToComment` call: the error reported (none on
success) and the active editor state after the call. -/
structure RollbackResult where
  error : Option RollbackError
  activeEditor : Option Editor
deriving DecidableEq

/-- Lookup of `this.changeLog[filename]`: the value at the first matching key,
or none when the key is absent. -/
def lookupLog (log : ChangeLog) (k : String) : Option (List CommentEntry) :=
  (log.find? (fun pr => pr.1 == k)).map (fun pr => pr.2)

/-- Translation of `rollbackToComment`, identical in both variants: the four
guard checks in source order, then the single-range edit replacing the text of
line `lineNumber - 1` (the line's range, excluding its line break) with the
empty string. -/
def rollbackToComment (log : ChangeLog) (activeEditor : Option Editor)
    (filename : String) (commentNumber : Int) : RollbackResult :=
  match lookupLog log filename with
  | none => ⟨some .noHistory, activeEditor⟩
  | some entries =>
    match entries.find? (fun e => (e.lineNumber : Int) == commentNumber) with
    | none => ⟨some .commentNotFound, activeEditor⟩
    | some target =>
      match activeEditor with
      | none => ⟨some .noActiveEditor, none⟩
      | some editor =>
        if editor.fileName = filename then
          let pos : Int := (target.lineNumber : Int) - 1
          if 0 ≤ pos ∧ pos.toNat < editor.lines.length then
            ⟨none, some { editor with lines := editor.lines.set pos.toNat [] }⟩
          else ⟨some .illegalLine, some editor⟩
        else ⟨some .wrongBuffer, some editor⟩

/-- Longest leading digit run of JavaScript `parseInt` at radix 10; none when
there is no leading digit. -/
def parseIntDigits (s : List Char) : Option Nat :=
  let ds := s.takeWhile Char.isDigit
  if ds.isEmpty then none
  else some (ds.foldl (fun a c => a * 10 + (c.toNat - '0'.toNat)) 0)

/-- JavaScript `parseInt(s, 10)`: skip leading whitespace, read an optional
sign, then the longest digit run; NaN (here: none) when no digits follow.
Trailing non-digit characters are ignored.  The numeric value is modelled
exactly (the float rounding of very long digit runs is not modelled). -/
def parseInt10 (s : List Char) : Option Int :=
  let t := s.dropWhile isJsWS
  match t with
  | '-' :: rest => (parseIntDigits rest).map (fun n => -(n : Int))
  | '+' :: rest => (parseIntDigits rest).map (fun n => (n : Int))
  | _ => (parseIntDigits t).map (fun n => (n : Int))

/-- Outcome of the `xompile.rollbackToComment` command handler: silent return
when there is no active editor, the InvalidInput notice on a NaN parse, or the
invocation of `rollbackToComment` with the parsed number. -/
inductive CmdOutcome where
  | noEditorSilent
  | invalidInput
  | invoked (r : RollbackResult)
deriving DecidableEq

/-- Translation of the `xompile.rollbackToComment` command handler: read the
active editor's file name (silently returning if there is none), prompt for a
string (`input`, none when the input box is dismissed), parse it with
`parseInt(s || '', 10)`, report "Invalid line number." on NaN, and otherwise
call `rollbackToComment` with the active buffer's path and the parsed value. -/
def rollbackCommand (log : ChangeLog) (activeEditor : Option Editor)
    (input : Option String) : CmdOutcome :=
  match activeEditor with
  | none => .noEditorSilent
  | some editor =>
    match parseInt10 (input.getD "").data with
    | none => .invalidInput
    | some n => .invoked (rollbackToComment log (some editor) editor.fileName n)

/-- Integer-literal test used to state the spec's "integer input": optional
surrounding whitespace, an optional sign, and one or more digits with nothing
else.  This is a spec-side notion, not a function of the source. -/
def isIntegerInput (s : String) : Bool :=
  match trimChars s.data with
  | '-' :: rest => !rest.isEmpty && rest.all Char.isDigit
  | '+' :: rest => !rest.isEmpty && rest.all Char.isDigit
  | t => !t.isEmpty && t.all Char.isDigit

/-- Assignment `this.changeLog[key] = value` on the store object: overwrite in
place when the key exists, append otherwise (JavaScript object key order). -/
def storeSet (log : ChangeLog) (k : String) (v : List CommentEntry) :
    ChangeLog :=
  if log.any (fun pr => pr.1 == k) then
    log.map (fun pr => if pr.1 == k then (k, v) else pr)
  else log ++ [(k, v)]

/-- Workspace file as returned by the host's file enumeration: its path and
the document opened from it. -/
structure WorkspaceFile where
  fsPath : String
  document : TextDocument
deriving DecidableEq

/-- Translation of `updateChangeLog` (the extended variant's refresh): clear
the store, then for each discovered workspace file store the extractor's
output keyed by the file's path.  The host's workspace enumeration is
modelled by the input list of files. -/
def updateChangeLog (files : List WorkspaceFile) (now : Nat) : ChangeLog :=
  files.foldl
    (fun log f => storeSet log f.fsPath (extractNumberedCommentsExt f.document now))
    []

/-- Timestamp eraser used to compare stores up to the `timestamp` field. -/
def clearTimestamp (e : CommentEntry) : CommentEntry := { e with timestamp := 0 }

/-- Node `path.basename` for POSIX paths as used on the report headings: the
component after the last slash. -/
def pathBasename (p : String) : String :=
  String.mk ((p.data.reverse.takeWhile (fun c => c ≠ '/')).reverse)

/-- File link target of a report heading, `vscode.Uri.file(p).toString()`
(percent-encoding of special characters is not modelled). -/
def fileUriString (p : String) : String := "file://" ++ p

/-- Time-of-day formatting `moment(ts).format('HH:mm:ss')` from a timestamp in
milliseconds (rendered in UTC; moment's local time zone is not modelled). -/
def fmtTimeOfDay (ts : Nat) : String :=
  let pad2 := fun n : Nat => if n < 10 then "0" ++ toString n else toString n
  pad2 (ts / 3600000 % 24) ++ ":" ++ pad2 (ts / 60000 % 60) ++ ":" ++
    pad2 (ts / 1000 % 60)

/-- Rendering of `entry.codeReference` inside a template literal: a missing
value prints as the string "undefined". -/
def refString : Option String → String
  | some s => s
  | none => "undefined"

/-- Per-file sections of the base variant's report, one line of output per
list element, in store order: files with no records contribute nothing, other
files contribute one heading line, a blank line, one list item per record and
a closing blank line. -/
def reportSectionsBase : ChangeLog → List String
  | [] => []
  | pr :: rest =>
    (if pr.2.length > 0 then
      ["## [" ++ pathBasename pr.1 ++ "](" ++ fileUriString pr.1 ++ ")", ""] ++
      pr.2.map (fun e =>
        "- Line " ++ toString e.lineNumber ++ ": " ++ e.comment ++
          " (**" ++ fmtTimeOfDay e.timestamp ++ "**) ") ++
      [""]
    else []) ++ reportSectionsBase rest

/-- Base-variant `generateMarkdownReport` content as a list of lines: the
title, a blank line, then the per-file sections. -/
def generateMarkdownReportBase (dateStr : String) (log : ChangeLog) :
    List String :=
  ["# Code History - " ++ dateStr, ""] ++ reportSectionsBase log

/-- Per-file sections of the extended variant's doc report: same shape as the
base report, with the record's cross-reference label embedded in each item. -/
def reportSectionsDocExt : ChangeLog → List String
  | [] => []
  | pr :: rest =>
    (if pr.2.length > 0 then
      ["## [" ++ pathBasename pr.1 ++ "](" ++ fileUriString pr.1 ++ ")", ""] ++
      pr.2.map (fun e =>
        "- " ++ refString e.codeReference ++ " Line " ++ toString e.lineNumber ++
          ": " ++ e.comment ++ " (**" ++ fmtTimeOfDay e.timestamp ++ "**)") ++
      [""]
    else []) ++ reportSectionsDocExt rest

/-- Extended-variant doc report (`markdownContentDoc`) content as a list of
lines: the title, a blank line, then the per-file sections. -/
def generateMarkdownDocExt (dateStr : String) (log : ChangeLog) :
    List String :=
  ["# Code Documentation - " ++ dateStr, ""] ++ reportSectionsDocExt log

/-- Prefix test on character lists used by the report-line classifiers. -/
def hasPrefixL : List Char → List Char → Bool
  | [], _ => true
  | p :: ps, s =>
    match s with
    | [] => false
    | c :: cs => p == c && hasPrefixL ps cs

/-- Markdown heading classifier used to count the report's headings. -/
def isHeadingLine (s : String) : Bool := hasPrefixL ['#', '#', ' '] s.data

/-- Markdown list-item classifier used to count the report's list items. -/
def isItemLine (s : String) : Bool := hasPrefixL ['-', ' '] s.data

/-- Projection of a record to the fields shared by both extractor variants. -/
def entryCore (e : CommentEntry) : Nat × String × String :=
  (e.lineNumber, e.comment, e.filePath)

/-! Helper lemmas about the extended extractor's cross-reference labels. -/

theorem assignRefs_length (k : Nat) (l : List CommentEntry) :
    (assignRefs k l).1.length = l.length := by
  induction l generalizing k with
  | nil => rfl
  | cons c cs ih =>
    by_cases h : c.codeReference.isNone <;> simp [assignRefs, h, ih]

theorem assignRefs_of_isSome (k : Nat) (l : List CommentEntry)
    (h : ∀ e ∈ l, e.codeReference.isSome) : assignRefs k l = (l, k) := by
  induction l generalizing k with
  | nil => rfl
  | cons c cs ih =>
    have hc : c.codeReference.isNone = false := by
      have := h c (by simp)
      simp [Option.isNone_eq_false_iff, ← Option.isSome_iff_ne_none, this]
    simp [assignRefs, hc, ih _ (fun e he => h e (by simp [he]))]

theorem refs_isSome_of_map_range {l : List CommentEntry} {g : Nat → String}
    (h : l.map (fun e => e.codeReference) =
      (List.range l.length).map (fun i => some (g i))) :
    ∀ e ∈ l, e.codeReference.isSome := by
  intro e he
  have hmem : e.codeReference ∈ l.map (fun e => e.codeReference) :=
    List.mem_map_of_mem _ he
  rw [h] at hmem
  obtain ⟨i, _, hi⟩ := List.mem_map.1 hmem
  rw [← hi]
  rfl

theorem stepExt_labels (marker : List Char) (fp : String) (now idx : Nat)
    (text : List Char) (st : ExtState)
    (h1 : st.comments.map (fun e => e.codeReference) =
      (List.range st.comments.length).map (fun i => some (mkCodeRef (i + 1))))
    (h2 : st.codeReferenceCounter = st.comments.length + 1) :
    ((stepExt marker fp now idx text st).comments.map (fun e => e.codeReference) =
      (List.range (stepExt marker fp now idx text st).comments.length).map
        (fun i => some (mkCodeRef (i + 1)))) ∧
    (stepExt marker fp now idx text st).codeReferenceCounter =
      (stepExt marker fp now idx text st).comments.length + 1 := by
  unfold stepExt
  by_cases hs : containsSub codeBlockStartPat text
  · simp [hs, h1, h2]
  · by_cases he : containsSub codeBlockEndPat text
    · have hall := refs_isSome_of_map_range h1
      simp [hs, he, assignRefs_of_isSome _ _ hall, h1, h2]
    · cases hm : matchNumbered marker text with
      | some pr =>
        refine ⟨?_, ?_⟩ <;>
          simp [hs, he, hm, List.range_succ, h1, h2]
      | none =>
        by_cases hb : st.codeBlockLines.length > 0 ||
            st.comments.any (fun c => c.codeReference.isNone) <;>
          simp [hs, he, hm, hb, h1, h2]

theorem extractGoExt_labels (marker : List Char) (fp : String) (now : Nat)
    (lines : List (List Char)) :
    ∀ (idx : Nat) (st : ExtState),
      st.comments.map (fun e => e.codeReference) =
        (List.range st.comments.length).map (fun i => some (mkCodeRef (i + 1))) →
      st.codeReferenceCounter = st.comments.length + 1 →
      ((extractGoExt marker fp now idx lines st).comments.map
          (fun e => e.codeReference) =
        (List.range (extractGoExt marker fp now idx lines st).comments.length).map
          (fun i => some (mkCodeRef (i + 1)))) ∧
      (extractGoExt marker fp now idx lines st).codeReferenceCounter =
        (extractGoExt marker fp now idx lines st).comments.length + 1 := by
  induction lines with
  | nil => intro idx st h1 h2; exact ⟨h1, h2⟩
  | cons text rest ih =>
    intro idx st h1 h2
    have hstep := stepExt_labels marker fp now idx text st h1 h2
    exact ih (idx + 1) _ hstep.1 hstep.2

/-! Helper lemmas showing the extractor's output depends on the clock value
only through the `timestamp` field, and lifting that fact to the store. -/

theorem assignRefs_map_stamp (t : Nat) (k : Nat) (l : List CommentEntry) :
    assignRefs k (l.map (fun e => { e with timestamp := t })) =
      ((assignRefs k l).1.map (fun e => { e with timestamp := t }),
       (assignRefs k l).2) := by
  induction l generalizing k with
  | nil => rfl
  | cons c cs ih =>
    by_cases h : c.codeReference.isNone <;>
      simp [assignRefs, h, ih]

theorem any_isNone_map_stamp (t : Nat) (l : List CommentEntry) :
    (l.map (fun e => { e with timestamp := t })).any
        (fun c => c.codeReference.isNone) =
      l.any (fun c => c.codeReference.isNone) := by
  rw [List.any_map]
  rfl

theorem stepExt_stamp (marker : List Char) (fp : String) (t1 t2 idx : Nat)
    (text : List Char) (cs : List CommentEntry) (k : Nat)
    (bl : List (List Char)) :
    stepExt marker fp t1 idx text
        ⟨cs.map (fun e => { e with timestamp := t1 }), k, bl⟩ =
      ⟨(stepExt marker fp t2 idx text ⟨cs, k, bl⟩).comments.map
          (fun e => { e with timestamp := t1 }),
       (stepExt marker fp t2 idx text ⟨cs, k, bl⟩).codeReferenceCounter,
       (stepExt marker fp t2 idx text ⟨cs, k, bl⟩).codeBlockLines⟩ := by
  unfold stepExt
  by_cases hs : containsSub codeBlockStartPat text = true
  · simp only [if_pos hs]
  · simp only [if_neg hs]
    by_cases he : containsSub codeBlockEndPat text = true
    · simp only [if_pos he]
      rw [assignRefs_map_stamp]
    · simp only [if_neg he]
      cases hm : matchNumbered marker text with
      | some pr => simp
      | none =>
        rw [any_isNone_map_stamp]
        by_cases hb : (decide (bl.length > 0) ||
            cs.any fun c => c.codeReference.isNone) = true
        · simp only [if_pos hb]
        · simp only [if_neg hb]

theorem extractGoExt_stamp (marker : List Char) (fp : String) (t1 t2 : Nat)
    (lines : List (List Char)) :
    ∀ (idx : Nat) (cs : List CommentEntry) (k : Nat) (bl : List (List Char)),
      extractGoExt marker fp t1 idx lines
          ⟨cs.map (fun e => { e with timestamp := t1 }), k, bl⟩ =
        ⟨(extractGoExt marker fp t2 idx lines ⟨cs, k, bl⟩).comments.map
            (fun e => { e with timestamp := t1 }),
         (extractGoExt marker fp t2 idx lines ⟨cs, k, bl⟩).codeReferenceCounter,
         (extractGoExt marker fp t2 idx lines ⟨cs, k, bl⟩).codeBlockLines⟩ := by
  induction lines with
  | nil => intro idx cs k bl; rfl
  | cons text rest ih =>
    intro idx cs k bl
    show extractGoExt marker fp t1 (idx + 1) rest _ = _
    rw [stepExt_stamp marker fp t1 t2 idx text cs k bl]
    exact ih (idx + 1) _ _ _

theorem extractExt_stamp (doc : TextDocument) (t1 t2 : Nat) :
    extractNumberedCommentsExt doc t1 =
      (extractNumberedCommentsExt doc t2).map
        (fun e => { e with timestamp := t1 }) := by
  unfold extractNumberedCommentsExt
  cases hr : getCommentRegex doc.languageId with
  | none => rfl
  | some marker =>
    have h := extractGoExt_stamp marker doc.fileName t1 t2 doc.lines 0 [] 1 []
    simp only [List.map_nil] at h
    show (extractGoExt marker doc.fileName t1 0 doc.lines ⟨[], 1, []⟩).comments =
      ((extractGoExt marker doc.fileName t2 0 doc.lines ⟨[], 1, []⟩).comments).map
        (fun e => { e with timestamp := t1 })
    rw [h]

theorem storeSet_map_stamp (t : Nat) (log : ChangeLog) (k : String)
    (v : List CommentEntry) :
    storeSet (log.map (fun pr => (pr.1, pr.2.map (fun e => { e with timestamp := t }))))
        k (v.map (fun e => { e with timestamp := t })) =
      (storeSet log k v).map
        (fun pr => (pr.1, pr.2.map (fun e => { e with timestamp := t }))) := by
  unfold storeSet
  have hany :
      (log.map (fun pr => (pr.1, pr.2.map (fun e => { e with timestamp := t })))).any
          (fun pr => pr.1 == k) =
        log.any (fun pr => pr.1 == k) := by
    rw [List.any_map]
    rfl
  rw [hany]
  by_cases hk : log.any (fun pr => pr.1 == k)
  · rw [if_pos hk, if_pos hk, List.map_map, List.map_map]
    apply List.map_congr_left
    intro pr _
    by_cases h : pr.1 = k <;> simp [h]
  · rw [if_neg hk, if_neg hk, List.map_append]
    simp

theorem updateChangeLog_stamp (files : List WorkspaceFile) (t1 t2 : Nat) :
    updateChangeLog files t1 =
      (updateChangeLog files t2).map
        (fun pr => (pr.1, pr.2.map (fun e => { e with timestamp := t1 }))) := by
  unfold updateChangeLog
  have h : ∀ acc : ChangeLog,
      files.foldl
          (fun log f => storeSet log f.fsPath (extractNumberedCommentsExt f.document t1))
          (acc.map (fun pr => (pr.1, pr.2.map (fun e => { e with timestamp := t1 })))) =
        (files.foldl
            (fun log f => storeSet log f.fsPath (extractNumberedCommentsExt f.document t2))
            acc).map
          (fun pr => (pr.1, pr.2.map (fun e => { e with timestamp := t1 }))) := by
    induction files with
    | nil => intro acc; rfl
    | cons f fs ih =>
      intro acc
      show fs.foldl _ (storeSet _ f.fsPath (extractNumberedCommentsExt f.document t1)) = _
      rw [extractExt_stamp f.document t1 t2, storeSet_map_stamp]
      exact ih (storeSet acc f.fsPath (extractNumberedCommentsExt f.document t2))
  have h0 := h []
  simpa using h0

/-! Helper lemmas relating the extended and the base extractor on documents
without leading or trailing whitespace and without block sentinel markers. -/

theorem extractGoBase_append (marker : List Char) (fp : String) (now : Nat)
    (lines : List (List Char)) :
    ∀ (idx : Nat) (acc : List CommentEntry),
      extractGoBase marker fp now idx lines acc =
        acc ++ extractGoBase marker fp now idx lines [] := by
  induction lines with
  | nil => intro idx acc; simp [extractGoBase]
  | cons text rest ih =>
    intro idx acc
    show extractGoBase marker fp now (idx + 1) rest
        (stepBase marker fp now idx text acc) = _
    rw [ih (idx + 1) (stepBase marker fp now idx text acc)]
    conv_rhs =>
      rw [show extractGoBase marker fp now idx (text :: rest) [] =
          extractGoBase marker fp now (idx + 1) rest
            (stepBase marker fp now idx text []) from rfl,
        ih (idx + 1) (stepBase marker fp now idx text [])]
    cases hm : matchNumbered marker (trimChars text) <;>
      simp [stepBase, hm]

theorem extractGoExt_base (marker : List Char) (fp : String) (now : Nat)
    (lines : List (List Char)) :
    ∀ (idx : Nat) (st : ExtState),
      (∀ l ∈ lines, trimChars l = l ∧
        containsSub codeBlockStartPat l = false ∧
        containsSub codeBlockEndPat l = false) →
      (extractGoExt marker fp now idx lines st).comments.map entryCore =
        st.comments.map entryCore ++
          (extractGoBase marker fp now idx lines []).map entryCore := by
  induction lines with
  | nil => intro idx st _; simp [extractGoExt, extractGoBase]
  | cons text rest ih =>
    intro idx st h
    obtain ⟨ht, hs, he⟩ := h text (by simp)
    have hrest : ∀ l ∈ rest, trimChars l = l ∧
        containsSub codeBlockStartPat l = false ∧
        containsSub codeBlockEndPat l = false :=
      fun l hl => h l (by simp [hl])
    show (extractGoExt marker fp now (idx + 1) rest
        (stepExt marker fp now idx text st)).comments.map entryCore = _
    rw [ih (idx + 1) _ hrest]
    have hb : extractGoBase marker fp now idx (text :: rest) [] =
        stepBase marker fp now idx text [] ++
          extractGoBase marker fp now (idx + 1) rest [] := by
      show extractGoBase marker fp now (idx + 1) rest
          (stepBase marker fp now idx text []) = _
      exact extractGoBase_append marker fp now rest (idx + 1) _
    rw [hb]
    have hs' : containsSub codeBlockStartPat text ≠ true := by simp [hs]
    have he' : containsSub codeBlockEndPat text ≠ true := by simp [he]
    cases hm : matchNumbered marker text with
    | some pr =>
      simp [stepExt, stepBase, if_neg hs', if_neg he', hm, ht, entryCore]
    | none =>
      by_cases hp : st.codeBlockLines.length > 0 ||
          st.comments.any (fun c => c.codeReference.isNone) <;>
        simp [stepExt, stepBase, if_neg hs', if_neg he', hm, ht, hp]

/-! Helper lemmas for the report structure: classifying the generated lines. -/

theorem isHeadingLine_secHead (x y : String) :
    isHeadingLine ("## [" ++ x ++ "](" ++ y ++ ")") = true := rfl

theorem isItemLine_secHead (x y : String) :
    isItemLine ("## [" ++ x ++ "](" ++ y ++ ")") = false := rfl

theorem isHeadingLine_titleBase (x : String) :
    isHeadingLine ("# Code History - " ++ x) = false := rfl

theorem isItemLine_titleBase (x : String) :
    isItemLine ("# Code History - " ++ x) = false := rfl

theorem isHeadingLine_titleDoc (x : String) :
    isHeadingLine ("# Code Documentation - " ++ x) = false := rfl

theorem isItemLine_titleDoc (x : String) :
    isItemLine ("# Code Documentation - " ++ x) = false := rfl

theorem isHeadingLine_blank : isHeadingLine "" = false := rfl

theorem isItemLine_blank : isItemLine "" = false := rfl

theorem filter_heading_itemsBase (l : List CommentEntry) :
    (l.map (fun e => "- Line " ++ toString e.lineNumber ++ ": " ++ e.comment ++
        " (**" ++ fmtTimeOfDay e.timestamp ++ "**) ")).filter isHeadingLine = [] := by
  rw [List.filter_map]
  have h : (isHeadingLine ∘ fun e : CommentEntry =>
      "- Line " ++ toString e.lineNumber ++ ": " ++ e.comment ++
        " (**" ++ fmtTimeOfDay e.timestamp ++ "**) ") = fun _ => false := by
    funext e; rfl
  rw [h, List.filter_false, List.map_nil]

theorem filter_item_itemsBase (l : List CommentEntry) :
    (l.map (fun e => "- Line " ++ toString e.lineNumber ++ ": " ++ e.comment ++
        " (**" ++ fmtTimeOfDay e.timestamp ++ "**) ")).filter isItemLine =
      l.map (fun e => "- Line " ++ toString e.lineNumber ++ ": " ++ e.comment ++
        " (**" ++ fmtTimeOfDay e.timestamp ++ "**) ") := by
  rw [List.filter_map]
  have h : (isItemLine ∘ fun e : CommentEntry =>
      "- Line " ++ toString e.lineNumber ++ ": " ++ e.comment ++
        " (**" ++ fmtTimeOfDay e.timestamp ++ "**) ") = fun _ => true := by
    funext e; rfl
  rw [h, List.filter_true]

theorem filter_heading_itemsDoc (l : List CommentEntry) :
    (l.map (fun e => "- " ++ refString e.codeReference ++ " Line " ++
        toString e.lineNumber ++ ": " ++ e.comment ++
        " (**" ++ fmtTimeOfDay e.timestamp ++ "**)")).filter isHeadingLine = [] := by
  rw [List.filter_map]
  have h : (isHeadingLine ∘ fun e : CommentEntry =>
      "- " ++ refString e.codeReference ++ " Line " ++ toString e.lineNumber ++
        ": " ++ e.comment ++ " (**" ++ fmtTimeOfDay e.timestamp ++ "**)") =
      fun _ => false := by
    funext e; obtain ⟨ln, cm, ts, fp, cr⟩ := e; cases cr <;> rfl
  rw [h, List.filter_false, List.map_nil]

theorem filter_item_itemsDoc (l : List CommentEntry) :
    (l.map (fun e => "- " ++ refString e.codeReference ++ " Line " ++
        toString e.lineNumber ++ ": " ++ e.comment ++
        " (**" ++ fmtTimeOfDay e.timestamp ++ "**)")).filter isItemLine =
      l.map (fun e => "- " ++ refString e.codeReference ++ " Line " ++
        toString e.lineNumber ++ ": " ++ e.comment ++
        " (**" ++ fmtTimeOfDay e.timestamp ++ "**)") := by
  rw [List.filter_map]
  have h : (isItemLine ∘ fun e : CommentEntry =>
      "- " ++ refString e.codeReference ++ " Line " ++ toString e.lineNumber ++
        ": " ++ e.comment ++ " (**" ++ fmtTimeOfDay e.timestamp ++ "**)") =
      fun _ => true := by
    funext e; obtain ⟨ln, cm, ts, fp, cr⟩ := e; cases cr <;> rfl
  rw [h, List.filter_true]

theorem sectionsBase_omit (log : ChangeLog) :
    reportSectionsBase (log.filter (fun pr => !pr.2.isEmpty)) =
      reportSectionsBase log := by
  induction log with
  | nil => rfl
  | cons pr rest ih =>
    by_cases hp : pr.2.isEmpty
    · have hlen : ¬ pr.2.length > 0 := by
        simp [List.isEmpty_iff] at hp
        simp [hp]
      simp [List.filter_cons, hp, reportSectionsBase, hlen, ih]
    · have hlen : pr.2.length > 0 := by
        cases h2 : pr.2 with
        | nil => rw [h2] at hp; simp at hp
        | cons a l => simp
      simp [List.filter_cons, hp, reportSectionsBase, hlen, ih]

theorem sectionsBase_headings (log : ChangeLog) :
    (reportSectionsBase log).filter isHeadingLine =
      (log.filter (fun pr => !pr.2.isEmpty)).map
        (fun pr => "## [" ++ pathBasename pr.1 ++ "](" ++ fileUriString pr.1 ++ ")") := by
  induction log with
  | nil => rfl
  | cons pr rest ih =>
    by_cases hp : pr.2.isEmpty
    · have hlen : ¬ pr.2.length > 0 := by
        simp [List.isEmpty_iff] at hp
        simp [hp]
      simp [reportSectionsBase, hlen, List.filter_cons, hp, ih]
    · have hlen : pr.2.length > 0 := by
        cases h2 : pr.2 with
        | nil => rw [h2] at hp; simp at hp
        | cons a l => simp
      simp only [reportSectionsBase, if_pos hlen, List.filter_cons, List.filter_append,
        List.append_assoc, List.cons_append, List.nil_append, isHeadingLine_secHead,
        isHeadingLine_blank, filter_heading_itemsBase, ih, hp]
      simp [List.filter_cons, hp]

theorem sectionsBase_items (log : ChangeLog) :
    (reportSectionsBase log).filter isItemLine =
      (log.map (fun pr => pr.2.map (fun e =>
        "- Line " ++ toString e.lineNumber ++ ": " ++ e.comment ++
          " (**" ++ fmtTimeOfDay e.timestamp ++ "**) "))).flatten := by
  induction log with
  | nil => rfl
  | cons pr rest ih =>
    by_cases hlen : pr.2.length > 0
    · simp only [reportSectionsBase, if_pos hlen, List.filter_append,
        List.cons_append, List.nil_append, List.filter_cons, isItemLine_secHead,
        isItemLine_blank, filter_item_itemsBase, ih, List.map_cons, List.flatten_cons]
      simp
    · have h2 : pr.2 = [] := by
        cases h : pr.2 with
        | nil => rfl
        | cons a l => rw [h] at hlen; simp at hlen
      simp [reportSectionsBase, hlen, h2, ih]

theorem sectionsDocExt_omit (log : ChangeLog) :
    reportSectionsDocExt (log.filter (fun pr => !pr.2.isEmpty)) =
      reportSectionsDocExt log := by
  induction log with
  | nil => rfl
  | cons pr rest ih =>
    by_cases hp : pr.2.isEmpty
    · have hlen : ¬ pr.2.length > 0 := by
        simp [List.isEmpty_iff] at hp
        simp [hp]
      simp [List.filter_cons, hp, reportSectionsDocExt, hlen, ih]
    · have hlen : pr.2.length > 0 := by
        cases h2 : pr.2 with
        | nil => rw [h2] at hp; simp at hp
        | cons a l => simp
      simp [List.filter_cons, hp, reportSectionsDocExt, hlen, ih]

theorem sectionsDocExt_headings (log : ChangeLog) :
    (reportSectionsDocExt log).filter isHeadingLine =
      (log.filter (fun pr => !pr.2.isEmpty)).map
        (fun pr => "## [" ++ pathBasename pr.1 ++ "](" ++ fileUriString pr.1 ++ ")") := by
  induction log with
  | nil => rfl
  | cons pr rest ih =>
    by_cases hp : pr.2.isEmpty
    · have hlen : ¬ pr.2.length > 0 := by
        simp [List.isEmpty_iff] at hp
        simp [hp]
      simp [reportSectionsDocExt, hlen, List.filter_cons, hp, ih]
    · have hlen : pr.2.length > 0 := by
        cases h2 : pr.2 with
        | nil => rw [h2] at hp; simp at hp
        | cons a l => simp
      simp only [reportSectionsDocExt, if_pos hlen, List.filter_cons, List.filter_append,
        List.append_assoc, List.cons_append, List.nil_append, isHeadingLine_secHead,
        isHeadingLine_blank, filter_heading_itemsDoc, ih, hp]
      simp [List.filter_cons, hp]

theorem sectionsDocExt_items (log : ChangeLog) :
    (reportSectionsDocExt log).filter isItemLine =
      (log.map (fun pr => pr.2.map (fun e =>
        "- " ++ refString e.codeReference ++ " Line " ++ toString e.lineNumber ++
          ": " ++ e.comment ++ " (**" ++ fmtTimeOfDay e.timestamp ++ "**)"))).flatten := by
  induction log with
  | nil => rfl
  | cons pr rest ih =>
    by_cases hlen : pr.2.length > 0
    · simp only [reportSectionsDocExt, if_pos hlen, List.filter_append,
        List.cons_append, List.nil_append, List.filter_cons, isItemLine_secHead,
        isItemLine_blank, filter_item_itemsDoc, ih, List.map_cons, List.flatten_cons]
      simp
    · have h2 : pr.2 = [] := by
        cases h : pr.2 with
        | nil => rfl
        | cons a l => rw [h] at hlen; simp at hlen
      simp [reportSectionsDocExt, hlen, h2, ih]

theorem extractExt_labels_range (doc : TextDocument) (now : Nat) :
    (extractNumberedCommentsExt doc now).map (fun e => e.codeReference) =
      (List.range (extractNumberedCommentsExt doc now).length).map
        (fun i => some (mkCodeRef (i + 1))) := by
  unfold extractNumberedCommentsExt
  cases hr : getCommentRegex doc.languageId with
  | none => rfl
  | some marker =>
    exact (extractGoExt_labels marker doc.fileName now doc.lines 0 ⟨[], 1, []⟩ rfl rfl).1

/-- C3: in the extended variant, for every document — in particular one with N
annotated lines outside any block and M annotated lines before one fenced
block — the cross-reference labels finally assigned to the file's records form
the strictly increasing sequence 1, 2, 3, ... with no gaps and no repeats. -/
theorem c3_labels_strictly_sequential (doc : TextDocument) (now : Nat) :
    (extractNumberedCommentsExt doc now).map (fun e => e.codeReference) =
      (List.range (extractNumberedCommentsExt doc now).length).map
        (fun i => some (mkCodeRef (i + 1))) :=
  extractExt_labels_range doc now

/-- C2 counterexample: in a document whose block-start marker is never closed,
the annotation record produced before the block-start nevertheless carries a
codeReference label, contradicting the claim that it is left without one. -/
theorem c2_counterexample :
    extractNumberedCommentsExt
        ⟨[("// 1: a").data, ("//[!!]").data, ("x").data], "javascript", "f"⟩ 0 =
      [⟨1, "a", 0, "f", some "[Code Reference 1](#code-1)"⟩] ∧
    (some "[Code Reference 1](#code-1)" : Option String) ≠ none := by
  constructor
  · decide
  · simp

/-- C2 amended: every record produced by the extended extractor carries a
codeReference assigned immediately at match time from the shared counter, so
records before an unterminated block are labelled like all others; the
block-end reassignment pass, which would label records lacking a
codeReference, finds none and returns the record list unchanged. -/
theorem c2_labels_assigned_immediately (doc : TextDocument) (now : Nat) :
    (∀ e ∈ extractNumberedCommentsExt doc now, e.codeReference.isSome) ∧
    ∀ (k : Nat) (l : List CommentEntry),
      (∀ e ∈ l, e.codeReference.isSome) → assignRefs k l = (l, k) :=
  ⟨refs_isSome_of_map_range (extractExt_labels_range doc now),
   fun k l h => assignRefs_of_isSome k l h⟩

/-- C2 witness: a concrete instance of the amended claim's second part. -/
theorem c2_witness :
    assignRefs 5 [⟨1, "a", 0, "f", some "x"⟩] = ([⟨1, "a", 0, "f", some "x"⟩], 5) :=
  (c2_labels_assigned_immediately ⟨[], "javascript", "f"⟩ 0).2 5
    [⟨1, "a", 0, "f", some "x"⟩] (by decide)

/-- C1 counterexample: a successful rollback on a matching record with the
correct buffer focused replaces the targeted line's text with the empty
string; the buffer keeps both of its lines, so its line count does not
decrease by 1 as claimed. -/
theorem c1_counterexample :
    rollbackToComment [("f", [⟨1, "a", 0, "f", none⟩])]
        (some ⟨"f", [("abc").data, ("def").data]⟩) "f" 1 =
      ⟨none, some ⟨"f", [[], ("def").data]⟩⟩ ∧
    ¬ ((⟨"f", [[], ("def").data]⟩ : Editor).lines.length =
        ([("abc").data, ("def").data] : List (List Char)).length - 1) := by
  decide

/-- C1 amended: on a matching record with the correct buffer focused (and the
recorded line position inside the buffer), rollback replaces the text of the
line at targetLineNumber - 1 with the empty string: the buffer's line count is
unchanged, the targeted line becomes empty, and every other line is
untouched. -/
theorem c1_rollback_clears_line (log : ChangeLog) (fn : String) (n : Int)
    (entries : List CommentEntry) (target : CommentEntry) (ed : Editor)
    (h1 : lookupLog log fn = some entries)
    (h2 : entries.find? (fun e => (e.lineNumber : Int) == n) = some target)
    (h3 : ed.fileName = fn)
    (h4 : 1 ≤ target.lineNumber)
    (h5 : target.lineNumber - 1 < ed.lines.length) :
    rollbackToComment log (some ed) fn n =
      ⟨none, some ⟨ed.fileName, ed.lines.set (target.lineNumber - 1) []⟩⟩ ∧
    (ed.lines.set (target.lineNumber - 1) []).length = ed.lines.length ∧
    (ed.lines.set (target.lineNumber - 1) [])[target.lineNumber - 1]? =
      some [] ∧
    ∀ i, i ≠ target.lineNumber - 1 →
      (ed.lines.set (target.lineNumber - 1) [])[i]? = ed.lines[i]? := by
  have hk : ((target.lineNumber : Int) - 1).toNat = target.lineNumber - 1 := by
    omega
  have hc : 0 ≤ (target.lineNumber : Int) - 1 ∧
      ((target.lineNumber : Int) - 1).toNat < ed.lines.length := by
    refine ⟨by omega, ?_⟩
    rw [hk]
    exact h5
  refine ⟨?_, List.length_set ed.lines _ _, ?_, ?_⟩
  · subst h3
    simp only [rollbackToComment, h1, h2, if_pos rfl, if_pos hc, hk]
    simp [hc.1, h5]
  · exact List.getElem?_set_eq h5
  · intro i hi
    exact List.getElem?_set_ne (Ne.symm hi)

/-- C1 witness: the amended claim evaluated on a concrete store and buffer. -/
theorem c1_witness :
    rollbackToComment [("f", [⟨2, "b", 5, "f", none⟩])]
        (some ⟨"f", [("x").data, ("y").data, ("z").data]⟩) "f" 2 =
      ⟨none, some ⟨"f", [("x").data, [], ("z").data]⟩⟩ :=
  (c1_rollback_clears_line [("f", [⟨2, "b", 5, "f", none⟩])] "f" 2
    [⟨2, "b", 5, "f", none⟩] ⟨2, "b", 5, "f", none⟩
    ⟨"f", [("x").data, ("y").data, ("z").data]⟩
    (by decide) (by decide) rfl (by decide) (by decide)).1

/-- C4 counterexample: for javascript, the line with two leading spaces
matches the comment pattern once trimmed, yet the extended-variant extractor
recognizes no annotation on it, because that variant matches the raw,
untrimmed line text. -/
theorem c4_counterexample :
    getCommentRegex "javascript" = some ['/', '/'] ∧
    (matchNumbered ['/', '/'] (trimChars ("  // 1: x").data)).isSome = true ∧
    extractNumberedCommentsExt ⟨[("  // 1: x").data], "javascript", "f"⟩ 0 = [] := by
  refine ⟨rfl, by decide, by decide⟩

/-- C4 amended: for every supported language, the base variant recognizes a
line iff its trimmed text matches the language's pattern, while the extended
variant recognizes a line iff its raw (untrimmed) text matches the pattern and
the line contains neither the block-start nor the block-end marker. -/
theorem c4_recognition_by_mode (lang : String) (marker : List Char)
    (hlang : getCommentRegex lang = some marker) (fp : String) (now idx : Nat)
    (text : List Char) (acc : List CommentEntry) (st : ExtState) :
    (stepBase marker fp now idx text acc).length =
      acc.length +
        (if (matchNumbered marker (trimChars text)).isSome then 1 else 0) ∧
    (stepExt marker fp now idx text st).comments.length =
      st.comments.length +
        (if containsSub codeBlockStartPat text = false ∧
            containsSub codeBlockEndPat text = false ∧
            (matchNumbered marker text).isSome = true then 1 else 0) := by
  constructor
  · unfold stepBase
    cases hm : matchNumbered marker (trimChars text) <;> simp [hm]
  · unfold stepExt
    by_cases hs : containsSub codeBlockStartPat text = true
    · simp [hs]
    · by_cases he : containsSub codeBlockEndPat text = true
      · simp [hs, he, assignRefs_length]
      · cases hm : matchNumbered marker text with
        | some pr => simp [hs, he, hm]
        | none =>
          by_cases hb : st.codeBlockLines.length > 0 ||
              st.comments.any (fun c => c.codeReference.isNone) <;>
            simp [hs, he, hm, hb]

/-- C4 witness: the amended recognition rule evaluated on a concrete line. -/
theorem c4_witness :
    (stepBase ['/', '/'] "f" 0 0 ("// 1: a").data []).length =
      ([] : List CommentEntry).length +
        (if (matchNumbered ['/', '/'] (trimChars ("// 1: a").data)).isSome
          then 1 else 0) :=
  (c4_recognition_by_mode "javascript" ['/', '/'] rfl "f" 0 0
    ("// 1: a").data [] ⟨[], 1, []⟩).1

/-- C5 counterexample: a line that matches the javascript pattern but also
contains the block-start marker yields no record at all in the extended
variant, contradicting the claim that every matching line produces exactly
one record. -/
theorem c5_counterexample :
    getCommentRegex "javascript" = some ['/', '/'] ∧
    matchNumbered ['/', '/'] ("// 1: a //[!!]").data =
      some (("1").data, (" a //[!!]").data) ∧
    extractNumberedCommentsExt
        ⟨[("// 1: a //[!!]").data], "javascript", "f"⟩ 0 = [] := by
  refine ⟨rfl, by decide, by decide⟩

/-- C5 amended: for every supported language, a line whose (for the base
variant: trimmed; for the extended variant: raw, and free of block sentinel
markers) text matches the pattern with digit group D and payload P contributes
exactly one record, with text trim(P) and the line's 1-based position; the
appended record does not depend on D. -/
theorem c5_record_from_payload (lang : String) (marker : List Char)
    (hlang : getCommentRegex lang = some marker) (fp : String) (now idx : Nat)
    (text digits payload : List Char) (acc : List CommentEntry) (st : ExtState) :
    (matchNumbered marker (trimChars text) = some (digits, payload) →
      stepBase marker fp now idx text acc =
        acc ++ [⟨idx + 1, String.mk (trimChars payload), now, fp, none⟩]) ∧
    (matchNumbered marker text = some (digits, payload) →
      containsSub codeBlockStartPat text = false →
      containsSub codeBlockEndPat text = false →
      stepExt marker fp now idx text st =
        ⟨st.comments ++ [⟨idx + 1, String.mk (trimChars payload), now, fp,
            some (mkCodeRef st.codeReferenceCounter)⟩],
          st.codeReferenceCounter + 1, st.codeBlockLines⟩) := by
  constructor
  · intro hm
    unfold stepBase
    rw [hm]
  · intro hm hs he
    unfold stepExt
    rw [if_neg (by simp [hs]), if_neg (by simp [he]), hm]

/-- C5 witness: the amended claim evaluated on a concrete line. -/
theorem c5_witness :
    stepBase ['/', '/'] "f" 7 2 ("// 3: hello").data [] =
      [⟨3, "hello", 7, "f", none⟩] :=
  (c5_record_from_payload "javascript" ['/', '/'] rfl "f" 7 2
    ("// 3: hello").data ("3").data (" hello").data [] ⟨[], 1, []⟩).1 (by decide)

/-- C6: rollback fails, in source order, with NotFound (no store entry, the
`noHistory` notice), NotFound (no record at the line, the `commentNotFound`
notice), NoActiveTarget (`noActiveEditor`), and WrongBuffer (`wrongBuffer`),
and in every failure case the active buffer is returned unmodified. -/
theorem c6_failure_order (log : ChangeLog) (ed : Option Editor) (fn : String)
    (n : Int) :
    (lookupLog log fn = none →
      rollbackToComment log ed fn n = ⟨some .noHistory, ed⟩) ∧
    (∀ entries, lookupLog log fn = some entries →
      entries.find? (fun e => (e.lineNumber : Int) == n) = none →
      rollbackToComment log ed fn n = ⟨some .commentNotFound, ed⟩) ∧
    (∀ entries target, lookupLog log fn = some entries →
      entries.find? (fun e => (e.lineNumber : Int) == n) = some target →
      ed = none → rollbackToComment log ed fn n = ⟨some .noActiveEditor, none⟩) ∧
    (∀ entries target editor, lookupLog log fn = some entries →
      entries.find? (fun e => (e.lineNumber : Int) == n) = some target →
      ed = some editor → editor.fileName ≠ fn →
      rollbackToComment log ed fn n = ⟨some .wrongBuffer, some editor⟩) := by
  refine ⟨?_, ?_, ?_, ?_⟩
  · intro h1
    simp only [rollbackToComment, h1]
  · intro entries h1 h2
    simp only [rollbackToComment, h1, h2]
  · intro entries target h1 h2 h3
    subst h3
    simp only [rollbackToComment, h1, h2]
  · intro entries target editor h1 h2 h3 h4
    subst h3
    simp only [rollbackToComment, h1, h2]
    rw [if_neg h4]

/-- C6 witness: the first failure case evaluated on a concrete empty store. -/
theorem c6_witness :
    rollbackToComment [] none "f" 1 = ⟨some .noHistory, none⟩ :=
  (c6_failure_order [] none "f" 1).1 rfl

/-- C7 counterexample: the input "3.7" is not an integer, yet the command does
not fail with the InvalidInput notice: parseInt truncates it to 3 and rollback
is invoked with 3. -/
theorem c7_counterexample :
    isIntegerInput "3.7" = false ∧
    rollbackCommand [] (some ⟨"f", []⟩) (some "3.7") =
      .invoked ⟨some .noHistory, some ⟨"f", []⟩⟩ ∧
    rollbackCommand [] (some ⟨"f", []⟩) (some "3.7") ≠ .invalidInput := by
  refine ⟨by decide, by decide, by decide⟩

/-- C7 amended: with an editor focused, the command fails with the
InvalidInput notice exactly when parseInt(input or empty, 10) is NaN — when
the input has no leading digits after optional whitespace and sign; otherwise
rollback is invoked with the parsed number, even for inputs such as "3.7" or
"12abc" that are not integers but have an integer prefix.  With no editor
focused the command returns silently. -/
theorem c7_parse_and_invoke (log : ChangeLog) (ed : Editor)
    (input : Option String) :
    (rollbackCommand log (some ed) input = .invalidInput ↔
      parseInt10 (input.getD "").data = none) ∧
    (∀ n : Int, parseInt10 (input.getD "").data = some n →
      rollbackCommand log (some ed) input =
        .invoked (rollbackToComment log (some ed) ed.fileName n)) ∧
    rollbackCommand log none input = .noEditorSilent := by
  refine ⟨?_, ?_, rfl⟩
  · unfold rollbackCommand
    cases hp : parseInt10 (input.getD "").data with
    | none => simp
    | some n => simp
  · intro n hp
    unfold rollbackCommand
    rw [hp]

/-- C7 witness: the amended claim evaluated on the concrete input "12abc". -/
theorem c7_witness :
    rollbackCommand [] (some ⟨"f", []⟩) (some "12abc") =
      .invoked (rollbackToComment [] (some ⟨"f", []⟩) "f" 12) :=
  (c7_parse_and_invoke [] ⟨"f", []⟩ (some "12abc")).2.1 12 (by decide)

/-- C8: refresh is idempotent in its output over an unchanged workspace: two
runs over the same files, at any two clock values, produce stores with the
same keys in the same order and, for each key, the same records up to the
timestamp field. -/
theorem c8_refresh_idempotent (files : List WorkspaceFile) (t1 t2 : Nat) :
    (updateChangeLog files t1).map (fun pr => (pr.1, pr.2.map clearTimestamp)) =
      (updateChangeLog files t2).map (fun pr => (pr.1, pr.2.map clearTimestamp)) := by
  rw [updateChangeLog_stamp files t1 t2, List.map_map]
  apply List.map_congr_left
  intro pr _
  simp [List.map_map, clearTimestamp]

/-- C9: report generation (the base report and the extended variant's doc
report) omits every file whose record list is empty — filtering those files
out of the store changes nothing — and emits, per remaining file, exactly one
heading linking to the file followed by exactly one list item per record, each
item carrying the record's line number, comment text and the time of day
derived from its timestamp. -/
theorem c9_report_structure (dateStr : String) (log : ChangeLog) :
    (generateMarkdownReportBase dateStr log =
      generateMarkdownReportBase dateStr (log.filter (fun pr => !pr.2.isEmpty))) ∧
    ((generateMarkdownReportBase dateStr log).filter isHeadingLine =
      (log.filter (fun pr => !pr.2.isEmpty)).map
        (fun pr => "## [" ++ pathBasename pr.1 ++ "](" ++ fileUriString pr.1 ++ ")")) ∧
    ((generateMarkdownReportBase dateStr log).filter isItemLine =
      (log.map (fun pr => pr.2.map (fun e =>
        "- Line " ++ toString e.lineNumber ++ ": " ++ e.comment ++
          " (**" ++ fmtTimeOfDay e.timestamp ++ "**) "))).flatten) ∧
    (((generateMarkdownReportBase dateStr log).filter isItemLine).length =
      (log.map (fun pr => pr.2.length)).sum) ∧
    (generateMarkdownDocExt dateStr log =
      generateMarkdownDocExt dateStr (log.filter (fun pr => !pr.2.isEmpty))) ∧
    ((generateMarkdownDocExt dateStr log).filter isHeadingLine =
      (log.filter (fun pr => !pr.2.isEmpty)).map
        (fun pr => "## [" ++ pathBasename pr.1 ++ "](" ++ fileUriString pr.1 ++ ")")) ∧
    ((generateMarkdownDocExt dateStr log).filter isItemLine =
      (log.map (fun pr => pr.2.map (fun e =>
        "- " ++ refString e.codeReference ++ " Line " ++ toString e.lineNumber ++
          ": " ++ e.comment ++ " (**" ++ fmtTimeOfDay e.timestamp ++ "**)"))).flatten) := by
  have hbaseItems : (generateMarkdownReportBase dateStr log).filter isItemLine =
      (log.map (fun pr => pr.2.map (fun e =>
        "- Line " ++ toString e.lineNumber ++ ": " ++ e.comment ++
          " (**" ++ fmtTimeOfDay e.timestamp ++ "**) "))).flatten := by
    unfold generateMarkdownReportBase
    simp only [List.cons_append, List.nil_append, List.filter_cons]
    simp only [isItemLine_titleBase, isItemLine_blank, Bool.false_eq_true,
      if_false, sectionsBase_items]
  refine ⟨?_, ?_, hbaseItems, ?_, ?_, ?_, ?_⟩
  · unfold generateMarkdownReportBase
    rw [sectionsBase_omit]
  · unfold generateMarkdownReportBase
    simp only [List.cons_append, List.nil_append, List.filter_cons]
    simp only [isHeadingLine_titleBase, isHeadingLine_blank, Bool.false_eq_true,
      if_false, sectionsBase_headings]
  · rw [hbaseItems, List.length_flatten, List.map_map]
    congr 1
    apply List.map_congr_left
    intro pr _
    simp
  · unfold generateMarkdownDocExt
    rw [sectionsDocExt_omit]
  · unfold generateMarkdownDocExt
    simp only [List.cons_append, List.nil_append, List.filter_cons]
    simp only [isHeadingLine_titleDoc, isHeadingLine_blank, Bool.false_eq_true,
      if_false, sectionsDocExt_headings]
  · unfold generateMarkdownDocExt
    simp only [List.cons_append, List.nil_append, List.filter_cons]
    simp only [isItemLine_titleDoc, isItemLine_blank, Bool.false_eq_true,
      if_false, sectionsDocExt_items]

/-- C10: on any document of a supported language in which no line has leading
or trailing whitespace and no line contains a block sentinel marker, the base
and the extended extractor produce the same records — the same lineNumber,
text and filePath in the same order — and the extended variant additionally
carries a codeReference label on every record. -/
theorem c10_modes_agree (doc : TextDocument) (now : Nat) (marker : List Char)
    (hlang : getCommentRegex doc.languageId = some marker)
    (hl : ∀ l ∈ doc.lines, trimChars l = l ∧
      containsSub codeBlockStartPat l = false ∧
      containsSub codeBlockEndPat l = false) :
    (extractNumberedCommentsExt doc now).map entryCore =
      (extractNumberedCommentsBase doc now).map entryCore ∧
    ∀ e ∈ extractNumberedCommentsExt doc now, e.codeReference.isSome := by
  constructor
  · unfold extractNumberedCommentsExt extractNumberedCommentsBase
    rw [hlang]
    have h := extractGoExt_base marker doc.fileName now doc.lines 0 ⟨[], 1, []⟩ hl
    simpa using h
  · exact refs_isSome_of_map_range (extractExt_labels_range doc now)

/-- C10 witness: the two extractors agree on a concrete whitespace-free,
marker-free javascript document. -/
theorem c10_witness :
    (extractNumberedCommentsExt
        ⟨[("// 1: a").data, ("x").data], "javascript", "g"⟩ 3).map entryCore =
      (extractNumberedCommentsBase
        ⟨[("// 1: a").data, ("x").data], "javascript", "g"⟩ 3).map entryCore :=
  (c10_modes_agree ⟨[("// 1: a").data, ("x").data], "javascript", "g"⟩ 3
    ['/', '/'] rfl (by decide)).1
